import Mathlib

/-!
Shallow embedding of the Texas ISD finance pipeline
(`scripts/prepare_data.py`, `src/api.py`, `src/nlp_engine.py`).

Strings are modelled as `List Char` (mirroring Python `str` as a character
sequence); spreadsheet cells as an inductive `Cell`; numeric values as `ℚ`
(pandas floats are dyadic rationals, a subset of `ℚ`); missing values (`NaN`,
`None`) as dedicated constructors / `Option`.
-/

namespace TexasISD

/-! ## Python character-level primitives -/

/-- Whitespace characters stripped by Python `str.strip()` (ASCII subset:
space, tab, newline, carriage return, vertical tab, form feed). -/
def isWsChar (c : Char) : Bool :=
  decide (c.toNat = 32 ∨ c.toNat = 9 ∨ c.toNat = 10 ∨ c.toNat = 13 ∨
          c.toNat = 11 ∨ c.toNat = 12)

/-- The character class `[0-9a-zA-Z]` of the regex in `to_snake_case`. -/
def isAlnumChar (c : Char) : Bool :=
  decide ((48 ≤ c.toNat ∧ c.toNat ≤ 57) ∨ (97 ≤ c.toNat ∧ c.toNat ≤ 122) ∨
          (65 ≤ c.toNat ∧ c.toNat ≤ 90))

/-- ASCII decimal digit, as tested by Python `str.isdigit` on ASCII data. -/
def isDigitChar (c : Char) : Bool :=
  decide (48 ≤ c.toNat ∧ c.toNat ≤ 57)

/-- Python `str.lower` on an ASCII character. -/
def pyToLower (c : Char) : Char :=
  if 65 ≤ c.toNat ∧ c.toNat ≤ 90 then Char.ofNat (c.toNat + 32) else c

/-- Drop the trailing run of characters satisfying `p` (right-hand strip). -/
def rdropWhile (p : Char → Bool) (l : List Char) : List Char :=
  (l.reverse.dropWhile p).reverse

/-- Python `str.strip()`: remove surrounding whitespace. -/
def pyStrip (l : List Char) : List Char :=
  rdropWhile isWsChar (l.dropWhile isWsChar)

/-- Python `str.lstrip("'")` for a single strip character `q`. -/
def pyLstripChar (q : Char) (l : List Char) : List Char :=
  l.dropWhile (fun c => c = q)

/-- Python `str.isdigit()`: non-empty and all digits. -/
def pyIsDigit (l : List Char) : Bool :=
  !l.isEmpty && l.all isDigitChar

/-- Python `str.zfill(w)`: left-pad with `'0'` to width `w`, keeping a
leading sign character in front of the padding. -/
def zfill (w : Nat) (l : List Char) : List Char :=
  match l with
  | c :: rest =>
      if c == '+' || c == '-' then
        c :: (List.replicate (w - 1 - rest.length) '0' ++ rest)
      else List.replicate (w - l.length) '0' ++ l
  | [] => List.replicate w '0'

/-! ## `clean_district_number` (`scripts/prepare_data.py`, lines 9–16)

```python
def clean_district_number(x):
    if pd.isna(x):
        return None
    s = str(x).strip().lstrip("'").lstrip("'")
    if s.isdigit():
        s = s.zfill(6)
    return s
```
The input is modelled post-`str(x)` as an optional character list
(`none` = `NaN`/`None`). Both `lstrip` calls use the ASCII apostrophe. -/
def cleanStr (s : List Char) : List Char :=
  let t := pyLstripChar '\'' (pyLstripChar '\'' (pyStrip s))
  if pyIsDigit t then zfill 6 t else t

def clean_district_number (x : Option (List Char)) : Option (List Char) :=
  match x with
  | none => none
  | some s => some (cleanStr s)

/-- The cleaning step as the claim words it: strip *surrounding* quote
characters and whitespace (from both ends), then zero-pad purely numeric
remainders to 6 digits, otherwise pass through unchanged. -/
def clean_district_number_claimed (x : Option (List Char)) : Option (List Char) :=
  match x with
  | none => none
  | some s =>
      let strippable : Char → Bool := fun c => isWsChar c || c = '\'' || c = '"'
      let t := rdropWhile strippable (s.dropWhile strippable)
      if pyIsDigit t then some (zfill 6 t) else some t

/-! ## `to_snake_case` (`scripts/prepare_data.py`, lines 18–23)

```python
def to_snake_case(name):
    s = name.strip().lower()
    s = re.sub(r'[^0-9a-zA-Z]+', '_', s)
    s = re.sub(r'_{2,}', '_', s).strip('_')
    return s[:60]  # Postgres column limit
```
`re.sub(r'[^0-9a-zA-Z]+', '_', s)` replaces each maximal run of
non-alphanumeric characters with a single underscore; it is modelled by a
left-to-right scan whose flag records whether the scan is inside such a run
(so that only the first character of the run emits the underscore). -/
def subRunsGo : Bool → List Char → List Char
  | _, [] => []
  | inRun, c :: cs =>
      if isAlnumChar c then c :: subRunsGo false cs
      else if inRun then subRunsGo true cs
      else '_' :: subRunsGo true cs

/-- `re.sub(r'[^0-9a-zA-Z]+', '_', s)`. -/
def subRuns (l : List Char) : List Char := subRunsGo false l

/-- `re.sub(r'_{2,}', '_', s)`: each maximal run of two or more underscores
becomes a single underscore (a run of one is left alone, which coincides
with emitting one underscore per maximal run). -/
def collapseUnderscoresGo : Bool → List Char → List Char
  | _, [] => []
  | inU, c :: cs =>
      if c = '_' then
        if inU then collapseUnderscoresGo true cs
        else '_' :: collapseUnderscoresGo true cs
      else c :: collapseUnderscoresGo false cs

/-- `re.sub(r'_{2,}', '_', s)`. -/
def collapseUnderscores (l : List Char) : List Char := collapseUnderscoresGo false l

/-- Drop leading underscores (left half of Python `str.strip('_')`). -/
def dropU (l : List Char) : List Char := l.dropWhile (fun c => c == '_')

/-- Drop trailing underscores (right half of Python `str.strip('_')`). -/
def rdropU (l : List Char) : List Char :=
  ((l.reverse).dropWhile (fun c => c == '_')).reverse

/-- Python `str.strip('_')`: remove surrounding underscores. -/
def stripUnderscores (l : List Char) : List Char := rdropU (dropU l)

/-- `to_snake_case` from the source, over `List Char`. -/
def to_snake_case (name : List Char) : List Char :=
  (stripUnderscores (collapseUnderscores (subRuns ((pyStrip name).map pyToLower)))).take 60

/-- Canonicalization as the spec words it, with the truncation width `w`
left as a parameter: lower-case, replace each run of non-alphanumeric
characters with a single underscore, strip leading and trailing
underscores, truncate to at most `w` characters. -/
def snake_case_spec (w : Nat) (name : List Char) : List Char :=
  (stripUnderscores (subRuns (name.map pyToLower))).take w

/-! ### Auxiliary facts about the canonicalization passes

These establish that the second regex pass and the initial whitespace strip
in `to_snake_case` are invisible in the final result, which is what lets the
source function be compared with the spec's description of it. -/

theorem toNat_ofNat_valid (n : Nat) (h : n < 55296) : (Char.ofNat n).toNat = n := by
  unfold Char.ofNat Char.ofNatAux
  split
  · rfl
  · exact absurd (Or.inl h) (by assumption)

theorem isWs_pyToLower (c : Char) : isWsChar (pyToLower c) = isWsChar c := by
  unfold pyToLower
  split
  · rename_i h
    have hv : (Char.ofNat (c.toNat + 32)).toNat = c.toNat + 32 :=
      toNat_ofNat_valid _ (by omega)
    simp only [isWsChar, hv, decide_eq_decide]
    omega
  · rfl

theorem alnum_ne_us {c : Char} (h : isAlnumChar c = true) : (c == '_') = false := by
  cases hbe : c == '_'
  · rfl
  · rw [show c = '_' from eq_of_beq hbe] at h
    exact absurd h (by decide)

theorem ws_not_alnum {c : Char} (h : isWsChar c = true) : isAlnumChar c = false := by
  simp only [isWsChar, decide_eq_true_eq] at h
  simp only [isAlnumChar, decide_eq_false_iff_not]
  omega

/-- The scan resuming inside a run never emits a leading underscore. -/
theorem dropU_subRunsGo_true (l : List Char) :
    dropU (subRunsGo true l) = subRunsGo true l := by
  induction l with
  | nil => rfl
  | cons c cs ih =>
      by_cases h : isAlnumChar c = true
      · simp [subRunsGo, h, dropU, List.dropWhile_cons, alnum_ne_us h]
      · simp only [subRunsGo, h, if_false, Bool.false_eq_true, if_true]
        exact ih

/-- Up to leading underscores, the starting flag of the scan is irrelevant. -/
theorem dropU_subRunsGo_flag (l : List Char) :
    dropU (subRunsGo false l) = dropU (subRunsGo true l) := by
  cases l with
  | nil => rfl
  | cons c cs =>
      by_cases h : isAlnumChar c = true
      · simp [subRunsGo, h]
      · simp only [subRunsGo, h, Bool.false_eq_true, if_false, if_true]
        rw [show dropU ('_' :: subRunsGo true cs) = dropU (subRunsGo true cs) by
              simp [dropU, List.dropWhile_cons]]

/-- Removing one leading whitespace character does not change the scan's
output beyond its leading underscore. -/
theorem dropU_subRuns_ws_cons {w : Char} (hw : isWsChar w = true) (l : List Char) :
    dropU (subRuns (w :: l)) = dropU (subRuns l) := by
  have hna : isAlnumChar w = false := ws_not_alnum hw
  simp only [subRuns, subRunsGo, hna, Bool.false_eq_true, if_false, if_true]
  rw [show dropU ('_' :: subRunsGo true l) = dropU (subRunsGo true l) by
        simp [dropU, List.dropWhile_cons]]
  rw [dropU_subRunsGo_true, dropU_subRunsGo_flag, dropU_subRunsGo_true]

theorem dropU_subRuns_dropWhile_ws (l : List Char) :
    dropU (subRuns (l.dropWhile isWsChar)) = dropU (subRuns l) := by
  induction l with
  | nil => rfl
  | cons c cs ih =>
      by_cases h : isWsChar c = true
      · rw [List.dropWhile_cons, if_pos h, ih, dropU_subRuns_ws_cons h]
      · rw [List.dropWhile_cons, if_neg h]

theorem rdropU_cons (c : Char) (X : List Char) :
    rdropU (c :: X) =
      if rdropU X = [] then (if c == '_' then [] else [c]) else c :: rdropU X := by
  cases he : (X.reverse.dropWhile (fun c => c == '_')).isEmpty with
  | true =>
      have hnil : X.reverse.dropWhile (fun c => c == '_') = [] := List.isEmpty_iff.mp he
      have hX : rdropU X = [] := by simp [rdropU, hnil]
      rw [if_pos hX]
      cases hc : (c == '_') <;>
        simp [rdropU, List.reverse_cons, List.dropWhile_append, he, hc,
              List.dropWhile_cons]
  | false =>
      have hX : rdropU X ≠ [] := by
        simp only [rdropU, ne_eq, List.reverse_eq_nil_iff]
        intro hcon
        rw [hcon] at he
        cases he
      rw [if_neg hX]
      simp [rdropU, List.reverse_cons, List.dropWhile_append, he, List.reverse_append]

/-- Appending one whitespace character does not change the scan's output
beyond its trailing underscore. -/
theorem rdropU_subRunsGo_ws {w : Char} (hw : isWsChar w = true) :
    ∀ (l : List Char) (b : Bool),
      rdropU (subRunsGo b (l ++ [w])) = rdropU (subRunsGo b l) := by
  have hna : isAlnumChar w = false := ws_not_alnum hw
  intro l
  induction l with
  | nil =>
      intro b
      cases b <;> simp [subRunsGo, hna, rdropU]
  | cons c cs ih =>
      intro b
      by_cases h : isAlnumChar c = true
      · have hs : ∀ t, subRunsGo b (c :: t) = c :: subRunsGo false t := by
          intro t; cases b <;> simp [subRunsGo, h]
        rw [List.cons_append, hs, hs, rdropU_cons, rdropU_cons, ih false]
      · cases b with
        | false =>
            simp only [List.cons_append, subRunsGo, h, Bool.false_eq_true,
                       if_false, if_true, List.append_eq]
            rw [rdropU_cons, rdropU_cons, ih true]
        | true =>
            simp only [List.cons_append, subRunsGo, h, Bool.false_eq_true,
                       if_false, if_true]
            exact ih true

theorem rdropU_subRuns_append_ws :
    ∀ (t : List Char), (∀ c ∈ t, isWsChar c = true) →
      ∀ X, rdropU (subRuns (X ++ t)) = rdropU (subRuns X) := by
  intro t
  induction t with
  | nil => intro _ X; simp
  | cons w rest ih =>
      intro hall X
      have hsplit : X ++ w :: rest = (X ++ [w]) ++ rest := by simp
      rw [hsplit, ih (fun c hc => hall c (List.mem_cons_of_mem _ hc)) (X ++ [w])]
      exact rdropU_subRunsGo_ws (hall w (List.mem_cons_self _ _)) X false

theorem rdropU_subRuns_rdropWS (l : List Char) :
    rdropU (subRuns (rdropWhile isWsChar l)) = rdropU (subRuns l) := by
  have hdec : l = rdropWhile isWsChar l ++ (l.reverse.takeWhile isWsChar).reverse := by
    conv_lhs => rw [← l.reverse_reverse,
                    ← List.takeWhile_append_dropWhile isWsChar l.reverse]
    rw [List.reverse_append]
    rfl
  conv_rhs => rw [hdec]
  rw [rdropU_subRuns_append_ws _
        (fun c hc => List.mem_takeWhile_imp (List.mem_reverse.mp hc))]

theorem dropU_rdropU_comm (l : List Char) : dropU (rdropU l) = rdropU (dropU l) := by
  induction l with
  | nil => rfl
  | cons c cs ih =>
      cases hc : (c == '_') with
      | false =>
          rw [show dropU (c :: cs) = c :: cs by simp [dropU, List.dropWhile_cons, hc],
              rdropU_cons]
          by_cases hnil : rdropU cs = []
          · rw [if_pos hnil, hc]
            simp [dropU, List.dropWhile_cons, hc]
          · rw [if_neg hnil]
            simp [dropU, List.dropWhile_cons, hc]
      | true =>
          obtain rfl : c = '_' := eq_of_beq hc
          have hRHS : dropU ('_' :: cs) = dropU cs := by
            simp [dropU, List.dropWhile_cons]
          rw [hRHS, rdropU_cons]
          by_cases hnil : rdropU cs = []
          · rw [if_pos hnil]
            rw [← ih, hnil]
            rfl
          · rw [if_neg hnil, show dropU ('_' :: rdropU cs) = dropU (rdropU cs) by
                  simp [dropU, List.dropWhile_cons], ih]

/-- The second regex pass of `to_snake_case` is the identity on the output of
the first: the first pass never emits two adjacent underscores. -/
theorem collapseGo_subRunsGo :
    ∀ (l : List Char) (b b' : Bool), (b' = true → b = true) →
      collapseUnderscoresGo b' (subRunsGo b l) = subRunsGo b l := by
  intro l
  induction l with
  | nil => intro b b' _; cases b' <;> rfl
  | cons c cs ih =>
      intro b b' hcond
      by_cases h : isAlnumChar c = true
      · have hs : subRunsGo b (c :: cs) = c :: subRunsGo false cs := by
          cases b <;> simp [subRunsGo, h]
        have hcne : ¬ c = '_' := by
          intro hcon
          rw [hcon] at h
          exact absurd h (by decide)
        rw [hs]
        show collapseUnderscoresGo b' (c :: subRunsGo false cs) = c :: subRunsGo false cs
        cases b' <;>
          simp only [collapseUnderscoresGo, hcne, if_false, if_neg hcne] <;>
          rw [ih false false (by simp)]
      · cases b with
        | true =>
            simp only [subRunsGo, h, Bool.false_eq_true, if_false, if_true]
            exact ih true b' (fun _ => rfl)
        | false =>
            cases b' with
            | true => exact absurd (hcond rfl) (by simp)
            | false =>
                simp only [subRunsGo, h, Bool.false_eq_true, if_false, if_true]
                show collapseUnderscoresGo false ('_' :: subRunsGo true cs) =
                     '_' :: subRunsGo true cs
                have hstep : collapseUnderscoresGo false ('_' :: subRunsGo true cs) =
                    '_' :: collapseUnderscoresGo true (subRunsGo true cs) := by
                  show (if '_' = '_' then
                          if false = true then
                            collapseUnderscoresGo true (subRunsGo true cs)
                          else '_' :: collapseUnderscoresGo true (subRunsGo true cs)
                        else
                          '_' :: collapseUnderscoresGo false (subRunsGo true cs)) =
                       '_' :: collapseUnderscoresGo true (subRunsGo true cs)
                  rw [if_pos rfl, if_neg (by simp)]
                rw [hstep, ih true true (fun _ => rfl)]

theorem collapse_subRuns (l : List Char) :
    collapseUnderscores (subRuns l) = subRuns l :=
  collapseGo_subRunsGo l false false (by simp)

theorem map_lower_pyStrip (l : List Char) :
    pyStrip (l.map pyToLower) = (pyStrip l).map pyToLower := by
  have hws : (isWsChar ∘ pyToLower) = isWsChar := funext isWs_pyToLower
  simp [pyStrip, rdropWhile, List.dropWhile_map, hws, ← List.map_reverse]

/-- `to_snake_case` from the source coincides with the spec's wording of
canonicalization at truncation width 60: the source's initial whitespace
strip and its second regex pass are both redundant. -/
theorem to_snake_case_eq_spec (name : List Char) :
    to_snake_case name = snake_case_spec 60 name := by
  unfold to_snake_case snake_case_spec
  rw [collapse_subRuns, ← map_lower_pyStrip]
  congr 1
  show stripUnderscores (subRuns (pyStrip (name.map pyToLower))) =
       stripUnderscores (subRuns (name.map pyToLower))
  unfold pyStrip
  calc stripUnderscores
          (subRuns (rdropWhile isWsChar ((name.map pyToLower).dropWhile isWsChar)))
      = dropU (rdropU
          (subRuns (rdropWhile isWsChar ((name.map pyToLower).dropWhile isWsChar)))) := by
        rw [stripUnderscores, dropU_rdropU_comm]
    _ = dropU (rdropU (subRuns ((name.map pyToLower).dropWhile isWsChar))) := by
        rw [rdropU_subRuns_rdropWS]
    _ = rdropU (dropU (subRuns ((name.map pyToLower).dropWhile isWsChar))) := by
        rw [dropU_rdropU_comm]
    _ = rdropU (dropU (subRuns (name.map pyToLower))) := by
        rw [show dropU (subRuns ((name.map pyToLower).dropWhile isWsChar)) =
              dropU (subRuns (name.map pyToLower)) from
            dropU_subRuns_dropWhile_ws (name.map pyToLower)]
    _ = stripUnderscores (subRuns (name.map pyToLower)) := rfl

/-! ### Auxiliary facts about `clean_district_number` -/

theorem dropWhile_eq_self_all {p : Char → Bool} {l : List Char}
    (h : ∀ c ∈ l, p c = false) : l.dropWhile p = l := by
  cases l with
  | nil => rfl
  | cons c cs =>
      rw [List.dropWhile_cons, h c (List.mem_cons_self _ _)]
      simp

theorem dropWhile_self_idem (p : Char → Bool) (l : List Char) :
    (l.dropWhile p).dropWhile p = l.dropWhile p := by
  induction l with
  | nil => rfl
  | cons c cs ih =>
      rw [List.dropWhile_cons]
      cases hp : p c with
      | true => simpa using ih
      | false => simp [List.dropWhile_cons, hp]

theorem rdropWhile_tail {p : Char → Bool} {a : Char} {ys : List Char}
    (h : rdropWhile p (a :: ys) = a :: ys) (hne : ys ≠ []) :
    rdropWhile p ys = ys := by
  unfold rdropWhile at h ⊢
  rw [List.reverse_cons] at h
  rw [List.dropWhile_append] at h
  by_cases he : (ys.reverse.dropWhile p).isEmpty = true
  · rw [if_pos he] at h
    exfalso
    have hlen := congrArg List.length h
    have hsmall : (List.dropWhile p [a]).length ≤ 1 := by
      cases hp : p a <;> simp [List.dropWhile_cons, hp]
    have hpos : 0 < ys.length := List.length_pos.mpr hne
    rw [List.length_reverse, List.length_cons] at hlen
    omega
  · rw [if_neg he] at h
    have h2 : List.dropWhile p ys.reverse ++ [a] = ys.reverse ++ [a] := by
      have h3 := congrArg List.reverse h
      rwa [List.reverse_reverse, List.reverse_cons] at h3
    rw [List.append_cancel_right h2, List.reverse_reverse]

/-- A list whose trailing run is already stripped keeps that property when a
leading segment is removed by `dropWhile`. -/
theorem rdropWhile_dropWhile {p q : Char → Bool} :
    ∀ {y : List Char}, rdropWhile p y = y →
      rdropWhile p (y.dropWhile q) = y.dropWhile q := by
  intro y
  induction y with
  | nil => intro _; rfl
  | cons a ys ih =>
      intro h
      rw [List.dropWhile_cons]
      cases hq : q a with
      | false => simpa using h
      | true =>
          rw [if_pos rfl]
          rcases eq_or_ne ys [] with rfl | hne
          · rfl
          · exact ih (rdropWhile_tail h hne)

theorem digit_not_ws {c : Char} (h : isDigitChar c = true) : isWsChar c = false := by
  simp only [isDigitChar, decide_eq_true_eq] at h
  simp only [isWsChar, decide_eq_false_iff_not]
  omega

theorem digit_not_quote {c : Char} (h : isDigitChar c = true) : (c == '\'') = false := by
  rw [beq_eq_false_iff_ne]
  rintro rfl
  exact absurd h (by decide)

theorem zfill_eq_replicate_of_digits {l : List Char} (h : l.all isDigitChar = true) :
    zfill 6 l = List.replicate (6 - l.length) '0' ++ l := by
  cases l with
  | nil => simp [zfill]
  | cons c rest =>
      have hc : isDigitChar c = true :=
        List.all_eq_true.mp h c (List.mem_cons_self _ _)
      have hplus : (c == '+') = false := by
        rw [beq_eq_false_iff_ne]; rintro rfl; exact absurd hc (by decide)
      have hminus : (c == '-') = false := by
        rw [beq_eq_false_iff_ne]; rintro rfl; exact absurd hc (by decide)
      have hcond : (c == '+' || c == '-') = false := by rw [hplus, hminus]; rfl
      show (if c == '+' || c == '-' then
              c :: (List.replicate (6 - 1 - rest.length) '0' ++ rest)
            else List.replicate (6 - (c :: rest).length) '0' ++ (c :: rest)) =
           List.replicate (6 - (c :: rest).length) '0' ++ (c :: rest)
      rw [hcond]
      simp

theorem rdropWhile_idem (p : Char → Bool) (l : List Char) :
    rdropWhile p (rdropWhile p l) = rdropWhile p l := by
  unfold rdropWhile
  rw [List.reverse_reverse, dropWhile_self_idem]

/-- One-step unfolding of `clean_district_number` on a present value. -/
theorem clean_some (s : List Char) :
    clean_district_number (some s) =
      (if pyIsDigit (pyLstripChar '\'' (pyLstripChar '\'' (pyStrip s)))
       then some (zfill 6 (pyLstripChar '\'' (pyLstripChar '\'' (pyStrip s))))
       else some (pyLstripChar '\'' (pyLstripChar '\'' (pyStrip s)))) := by
  have hcs : cleanStr s =
      if pyIsDigit (pyLstripChar '\'' (pyLstripChar '\'' (pyStrip s)))
      then zfill 6 (pyLstripChar '\'' (pyLstripChar '\'' (pyStrip s)))
      else pyLstripChar '\'' (pyLstripChar '\'' (pyStrip s)) := rfl
  show some (cleanStr s) = _
  rw [hcs]
  split <;> rfl

/-- `true` iff the cleaned value (when the input is not missing) does not
start with a whitespace character; quote stripping can expose such a
character, which is the one way `clean_district_number` fails to be
idempotent. -/
def noLeadWs : List Char → Bool
  | [] => true
  | c :: _ => !isWsChar c

def cleanStable (x : Option (List Char)) : Bool :=
  match clean_district_number x with
  | none => true
  | some t => noLeadWs t

theorem all_digit_reverse {l : List Char} (h : l.all isDigitChar = true) :
    l.reverse.all isDigitChar = true := by
  rw [List.all_eq_true] at h ⊢
  intro c hc
  exact h c (List.mem_reverse.mp hc)

/-- An all-digit list of length at least 6 is a fixed point of the cleaning
function. -/
theorem clean_fixed_digits {t : List Char} (hall : t.all isDigitChar = true)
    (hne : t ≠ []) (hlen : 6 ≤ t.length) :
    clean_district_number (some t) = some t := by
  have hws : ∀ c ∈ t, isWsChar c = false := fun c hc =>
    digit_not_ws (List.all_eq_true.mp hall c hc)
  have hq : ∀ c ∈ t, (c == '\'') = false := fun c hc =>
    digit_not_quote (List.all_eq_true.mp hall c hc)
  have hstrip : pyStrip t = t := by
    unfold pyStrip rdropWhile
    rw [dropWhile_eq_self_all hws,
        dropWhile_eq_self_all (fun c hc => hws c (List.mem_reverse.mp hc)),
        List.reverse_reverse]
  have hlq : pyLstripChar '\'' t = t := dropWhile_eq_self_all hq
  have hdig : pyIsDigit t = true := by
    unfold pyIsDigit
    rw [hall]
    cases t with
    | nil => exact absurd rfl hne
    | cons c cs => rfl
  have hz : zfill 6 t = t := by
    rw [zfill_eq_replicate_of_digits hall, Nat.sub_eq_zero_of_le hlen]
    rfl
  rw [clean_some, hstrip, hlq, hlq, hdig]
  simp only [if_true, hz]

theorem zfill6_digits_props {u : List Char} (hd : pyIsDigit u = true) :
    (zfill 6 u).all isDigitChar = true ∧ zfill 6 u ≠ [] ∧ 6 ≤ (zfill 6 u).length := by
  have hall : u.all isDigitChar = true := by
    unfold pyIsDigit at hd
    exact (Bool.and_eq_true_iff.mp hd).2
  have hrep : (List.replicate (6 - u.length) '0').all isDigitChar = true := by
    rw [List.all_replicate]
    split
    · rfl
    · decide
  rw [zfill_eq_replicate_of_digits hall]
  refine ⟨?_, ?_, ?_⟩
  · rw [List.all_append, hrep, hall]
    rfl
  · have hu : u ≠ [] := by
      unfold pyIsDigit at hd
      have := (Bool.and_eq_true_iff.mp hd).1
      intro hcon
      rw [hcon] at this
      exact absurd this (by decide)
    intro hcon
    rcases List.append_eq_nil.mp hcon with ⟨-, h2⟩
    exact hu h2
  · rw [List.length_append, List.length_replicate]
    omega

/-- `clean_district_number` is idempotent on every input whose cleaned value
does not begin with whitespace. -/
theorem clean_idem_of_stable (x : Option (List Char)) (h : cleanStable x = true) :
    clean_district_number (clean_district_number x) = clean_district_number x := by
  cases x with
  | none => rfl
  | some s =>
      by_cases hd : pyIsDigit (pyLstripChar '\'' (pyLstripChar '\'' (pyStrip s))) = true
      · have hout : clean_district_number (some s) =
            some (zfill 6 (pyLstripChar '\'' (pyLstripChar '\'' (pyStrip s)))) := by
          rw [clean_some, hd]
          simp only [if_true]
        rw [hout]
        obtain ⟨hall, hne, hlen⟩ := zfill6_digits_props hd
        exact clean_fixed_digits hall hne hlen
      · have hdf : pyIsDigit (pyLstripChar '\'' (pyLstripChar '\'' (pyStrip s))) = false :=
          Bool.eq_false_iff.mpr hd
        have hout : clean_district_number (some s) =
            some (pyLstripChar '\'' (pyLstripChar '\'' (pyStrip s))) := by
          rw [clean_some, hdf]
          simp only [Bool.false_eq_true, if_false]
        set u := pyLstripChar '\'' (pyLstripChar '\'' (pyStrip s)) with hu
        rw [hout]
        -- the stability hypothesis says u does not start with whitespace
        have hstab : noLeadWs u = true := by
          unfold cleanStable at h
          rw [hout] at h
          exact h
        have hlead : u.dropWhile isWsChar = u := by
          cases hue : u with
          | nil => rfl
          | cons c cs =>
              rw [hue] at hstab
              simp only [noLeadWs, Bool.not_eq_true'] at hstab
              rw [List.dropWhile_cons, hstab]
              simp
        have htrail : rdropWhile isWsChar u = u := by
          rw [hu]
          unfold pyStrip
          exact rdropWhile_dropWhile (rdropWhile_dropWhile (rdropWhile_idem _ _))
        have hlq : pyLstripChar '\'' u = u := by
          rw [hu]
          unfold pyLstripChar
          exact dropWhile_self_idem _ _
        have hdf2 : pyIsDigit u = false := Bool.eq_false_iff.mpr hd
        rw [clean_some, show pyStrip u = u by unfold pyStrip; rw [hlead, htrail],
            hlq, hlq, hdf2]
        simp only [Bool.false_eq_true, if_false]

/-! ## Column-name de-duplication (`prepare_data`, lines 36–48)

```python
col_mapping = {}
seen = set()
for col in df.columns:
    base = to_snake_case(col)
    candidate = base
    i = 1
    while candidate in seen:
        candidate = f"{base}_{i}"
        i += 1
    seen.add(candidate)
    col_mapping[col] = candidate
df.rename(columns=col_mapping, inplace=True)
```
The `while` loop is modelled with explicit fuel `seen.length + 1`, which is
proved sufficient below; the `dict` is modelled as a function with
later-iteration updates taking precedence (Python dict assignment
overwrites); `df.rename` applies that function to every column name. -/

/-- Decimal digit character for `n < 10` (as produced by Python `str(i)`). -/
def digitChar (n : Nat) : Char := Char.ofNat (48 + n)

/-- Decimal rendering of a natural number, as in Python `f"{base}_{i}"`
(fuel-based structural recursion; `n + 1` fuel always suffices). -/
def natDigitsAux : Nat → Nat → List Char
  | 0, _ => []
  | fuel + 1, n =>
      if n < 10 then [digitChar n]
      else natDigitsAux fuel (n / 10) ++ [digitChar (n % 10)]

def natDigits (n : Nat) : List Char := natDigitsAux (n + 1) n

/-- Evaluation of a digit string back to a number (decimal place value). -/
def fromDigits (l : List Char) : Nat :=
  l.foldl (fun a c => 10 * a + (c.toNat - 48)) 0

theorem fromDigits_append_singleton (xs : List Char) (c : Char) :
    fromDigits (xs ++ [c]) = 10 * fromDigits xs + (c.toNat - 48) := by
  simp [fromDigits, List.foldl_append]

theorem toNat_digitChar {n : Nat} (h : n < 10) : (digitChar n).toNat = 48 + n := by
  unfold digitChar
  exact toNat_ofNat_valid _ (by omega)

theorem natDigitsAux_succ (fuel n : Nat) :
    natDigitsAux (fuel + 1) n =
      if n < 10 then [digitChar n]
      else natDigitsAux fuel (n / 10) ++ [digitChar (n % 10)] := rfl

theorem fromDigits_natDigitsAux :
    ∀ fuel n, n < fuel → fromDigits (natDigitsAux fuel n) = n := by
  intro fuel
  induction fuel with
  | zero => intro n h; exact absurd h (Nat.not_lt_zero n)
  | succ fuel ih =>
      intro n h
      by_cases h10 : n < 10
      · rw [natDigitsAux_succ, if_pos h10]
        show 10 * 0 + ((digitChar n).toNat - 48) = n
        rw [toNat_digitChar h10]
        omega
      · rw [natDigitsAux_succ, if_neg h10]
        rw [fromDigits_append_singleton,
            ih (n / 10) (by
              have := Nat.div_lt_self (show 0 < n by omega) (show 1 < 10 by omega)
              omega),
            toNat_digitChar (Nat.mod_lt n (by omega))]
        omega

theorem natDigits_inj {a b : Nat} (h : natDigits a = natDigits b) : a = b := by
  have ha := fromDigits_natDigitsAux (a + 1) a (Nat.lt_succ_self a)
  have hb := fromDigits_natDigitsAux (b + 1) b (Nat.lt_succ_self b)
  rw [← ha, ← hb]
  unfold natDigits at h
  rw [h]

/-- The candidate tried at suffix index `i`: `f"{base}_{i}"`. -/
def suffixCand (base : List Char) (i : Nat) : List Char :=
  base ++ '_' :: natDigits i

theorem suffixCand_inj {base : List Char} {a b : Nat}
    (h : suffixCand base a = suffixCand base b) : a = b := by
  unfold suffixCand at h
  have h2 := List.append_cancel_left h
  exact natDigits_inj (List.tail_eq_of_cons_eq h2)

/-- The `while candidate in seen` loop, with explicit fuel. -/
def findFresh (base : List Char) (seen : List (List Char)) : Nat → Nat → List Char
  | i, 0 => suffixCand base i
  | i, fuel + 1 =>
      if suffixCand base i ∈ seen then findFresh base seen (i + 1) fuel
      else suffixCand base i

/-- One iteration of the renaming loop's candidate search. -/
def freshName (base : List Char) (seen : List (List Char)) : List Char :=
  if base ∈ seen then findFresh base seen 1 (seen.length + 1) else base

theorem findFresh_not_mem (base : List Char) (seen : List (List Char)) :
    ∀ fuel i, (∃ j, i ≤ j ∧ j < i + fuel ∧ suffixCand base j ∉ seen) →
      findFresh base seen i fuel ∉ seen := by
  intro fuel
  induction fuel with
  | zero =>
      rintro i ⟨j, hj1, hj2, -⟩
      exact absurd hj2 (by omega)
  | succ fuel ih =>
      rintro i ⟨j, hj1, hj2, hj3⟩
      show (if suffixCand base i ∈ seen then findFresh base seen (i + 1) fuel
            else suffixCand base i) ∉ seen
      by_cases hm : suffixCand base i ∈ seen
      · rw [if_pos hm]
        refine ih (i + 1) ⟨j, ?_, by omega, hj3⟩
        rcases Nat.eq_or_lt_of_le hj1 with rfl | hlt
        · exact absurd hm hj3
        · omega
      · rw [if_neg hm]
        exact hm

theorem exists_fresh (base : List Char) (seen : List (List Char)) :
    ∃ j, 1 ≤ j ∧ j < 1 + (seen.length + 1) ∧ suffixCand base j ∉ seen := by
  by_contra hcon
  push_neg at hcon
  have hsub : (Finset.Icc 1 (seen.length + 1)).image (suffixCand base) ⊆
      seen.toFinset := by
    intro x hx
    rw [Finset.mem_image] at hx
    obtain ⟨j, hj, rfl⟩ := hx
    rw [Finset.mem_Icc] at hj
    rw [List.mem_toFinset]
    exact hcon j hj.1 (by omega)
  have hcard := Finset.card_le_card hsub
  rw [Finset.card_image_of_injOn (fun a _ b _ hab => suffixCand_inj hab),
      Nat.card_Icc] at hcard
  have := List.toFinset_card_le seen
  omega

theorem freshName_not_mem (base : List Char) (seen : List (List Char)) :
    freshName base seen ∉ seen := by
  unfold freshName
  by_cases hb : base ∈ seen
  · rw [if_pos hb]
    exact findFresh_not_mem base seen (seen.length + 1) 1 (exists_fresh base seen)
  · rw [if_neg hb]
    exact hb

/-- The sequence of candidates produced by the loop, in column order. -/
def buildCands : List (List Char) → List (List Char) → List (List Char)
  | [], _ => []
  | c :: rest, seen =>
      freshName (to_snake_case c) seen ::
        buildCands rest (freshName (to_snake_case c) seen :: seen)

/-- The `col_mapping` dict: later assignments to the same key overwrite. -/
def buildMap : List (List Char) → List (List Char) →
    (List Char → List Char) → (List Char → List Char)
  | [], _, m => m
  | c :: rest, seen, m =>
      buildMap rest (freshName (to_snake_case c) seen :: seen)
        (fun k => if k = c then freshName (to_snake_case c) seen else m k)

/-- `df.rename(columns=col_mapping)`: every column name is looked up in the
finished mapping. -/
def renameCols (cols : List (List Char)) : List (List Char) :=
  cols.map (buildMap cols [] id)

theorem buildCands_nodup_disjoint :
    ∀ cols seen, (buildCands cols seen).Nodup ∧
      ∀ x ∈ buildCands cols seen, x ∉ seen := by
  intro cols
  induction cols with
  | nil => intro seen; exact ⟨List.nodup_nil, by intro x hx; cases hx⟩
  | cons c rest ih =>
      intro seen
      obtain ⟨hnd, hdis⟩ := ih (freshName (to_snake_case c) seen :: seen)
      refine ⟨List.Nodup.cons ?_ hnd, ?_⟩
      · intro hmem
        exact hdis _ hmem (List.mem_cons_self _ _)
      · intro x hx
        rcases List.mem_cons.mp hx with rfl | hx'
        · exact freshName_not_mem _ seen
        · intro hxs
          exact hdis x hx' (List.mem_cons_of_mem _ hxs)

theorem buildMap_not_key :
    ∀ cols seen m (k : List Char), k ∉ cols → buildMap cols seen m k = m k := by
  intro cols
  induction cols with
  | nil => intro seen m k _; rfl
  | cons c rest ih =>
      intro seen m k hk
      show buildMap rest _ _ k = m k
      rw [ih _ _ k (fun h => hk (List.mem_cons_of_mem _ h))]
      rw [if_neg (fun h => hk (by rw [h]; exact List.mem_cons_self _ _))]

theorem map_buildMap_eq_buildCands :
    ∀ cols seen m, cols.Nodup → cols.map (buildMap cols seen m) = buildCands cols seen := by
  intro cols
  induction cols with
  | nil => intro seen m _; rfl
  | cons c rest ih =>
      intro seen m hnd
      show buildMap (c :: rest) seen m c ::
             rest.map (buildMap (c :: rest) seen m) =
           freshName (to_snake_case c) seen ::
             buildCands rest (freshName (to_snake_case c) seen :: seen)
      have hc : c ∉ rest := (List.nodup_cons.mp hnd).1
      congr 1
      · show buildMap rest _ _ c = _
        rw [buildMap_not_key rest _ _ c hc, if_pos rfl]
      · exact ih _ _ (List.nodup_cons.mp hnd).2

/-- With pairwise-distinct raw names, the renamed columns are exactly the
loop's candidate sequence, which is duplicate-free. -/
theorem renameCols_nodup (cols : List (List Char)) (h : cols.Nodup) :
    (renameCols cols).Nodup := by
  unfold renameCols
  rw [map_buildMap_eq_buildCands cols [] id h]
  exact (buildCands_nodup_disjoint cols []).1

/-! ## Spreadsheet cells and type coercion (`prepare_data`, lines 51–60)

A cell of the loaded frame is an integer, a float (pandas `float64` values
are dyadic rationals, modelled exactly in `ℚ`), a string, or missing
(`NaN`). `pd.to_numeric(•, errors="coerce")` maps each cell to an optional
rational; on strings it parses the standard decimal-literal grammar
(optional sign, digits with at most one point, optional exponent), which is
the fragment of the pandas numeric grammar exercised by this data
(`inf`/`nan` spellings are not modelled). -/

inductive Cell where
  | intv (n : ℤ)
  | fl (q : ℚ)
  | txt (s : List Char)
  | null
deriving DecidableEq, Repr

/-- Leading sign of a numeric literal: `(isNegative, remainder)`. -/
def parseSign : List Char → Bool × List Char
  | '+' :: r => (false, r)
  | '-' :: r => (true, r)
  | l => (false, l)

/-- Maximal leading digit run and the remainder. -/
def spanDigits (l : List Char) : List Char × List Char :=
  (l.takeWhile isDigitChar, l.dropWhile isDigitChar)

/-- Exponent part `[eE][+-]?digits` (or nothing); `none` on trailing junk. -/
def parseExpPart (l : List Char) : Option ℤ :=
  match l with
  | [] => some 0
  | c :: r =>
      if c == 'e' || c == 'E' then
        let sr := parseSign r
        let dr := spanDigits sr.2
        if dr.1 ≠ [] ∧ dr.2 = [] then
          some (if sr.1 then -(fromDigits dr.1 : ℤ) else (fromDigits dr.1 : ℤ))
        else none
      else none

/-- Decimal-literal parsing of a string cell, as done by
`pd.to_numeric(•, errors="coerce")`. -/
def parsePyNum (s : List Char) : Option ℚ :=
  let t := pyStrip s
  let sr := parseSign t
  let dr := spanDigits sr.2
  match dr.2 with
  | '.' :: r3 =>
      let fr := spanDigits r3
      if dr.1 = [] ∧ fr.1 = [] then none
      else
        match parseExpPart fr.2 with
        | none => none
        | some e =>
            let mant : ℚ :=
              (fromDigits dr.1 : ℚ) + (fromDigits fr.1 : ℚ) / (10 : ℚ) ^ fr.1.length
            some ((if sr.1 then -mant else mant) * (10 : ℚ) ^ e)
  | _ =>
      if dr.1 = [] then none
      else
        match parseExpPart dr.2 with
        | none => none
        | some e =>
            some ((if sr.1 then -(fromDigits dr.1 : ℚ) else (fromDigits dr.1 : ℚ))
                  * (10 : ℚ) ^ e)

/-- `pd.to_numeric(•, errors="coerce")` on one cell. -/
def toNumericCell : Cell → Option ℚ
  | .intv n => some (n : ℚ)
  | .fl q => some q
  | .txt s => parsePyNum s
  | .null => none

/-- The cell after numeric coercion of its column: parse failures and
missing values become `NaN`. -/
def coerceCell (c : Cell) : Cell :=
  match toNumericCell c with
  | some q => .fl q
  | none => .null

/-- Number of cells that survive `to_numeric` (`nums.notna()`). -/
def parsedCount (cells : List Cell) : Nat :=
  cells.countP (fun c => (toNumericCell c).isSome)

/-- The source's coercion test: `nums.notna().mean() >= 0.9`. The mean is
taken over the whole column (an empty column's `NaN` mean fails the test),
so missing cells count against the ratio. -/
def decideCoerce (cells : List Cell) : Bool :=
  !cells.isEmpty && decide (9 * cells.length ≤ 10 * parsedCount cells)

/-- Cells that are present (not `NaN`) in the raw column. -/
def nonMissingCount (cells : List Cell) : Nat :=
  cells.countP (fun c => !(c == Cell.null))

/-- The coercion test as the claim words it: at least 90% of the
*non-missing* values parse successfully. -/
def decideCoerceClaimed (cells : List Cell) : Bool :=
  decide (9 * nonMissingCount cells ≤ 10 * parsedCount cells)

/-! ### `str()` rendering of numeric cells

`clean_district_number` is applied via `df[...].apply`, so a numeric cell is
first rendered by Python `str()`. `intStr` renders integers;
`floatStr` renders a float's exact decimal expansion (dyadic rationals
terminate; the expansion is cut at 20 digits, enough for every `float64`
cell value that round-trips through this data). These renderings are used
only for faithfulness of the cell-level cleaning step. -/

def intStr (n : ℤ) : List Char :=
  if n < 0 then '-' :: natDigits n.natAbs else natDigits n.natAbs

def fracDigits : Nat → ℚ → List Char
  | 0, _ => []
  | fuel + 1, r =>
      if r = 0 then []
      else digitChar (⌊r * 10⌋).toNat :: fracDigits fuel (r * 10 - ⌊r * 10⌋)

def floatStr (q : ℚ) : List Char :=
  let a : ℚ := |q|
  let ip : ℤ := ⌊a⌋
  let fs := fracDigits 20 (a - ip)
  (if q < 0 then ['-'] else []) ++ natDigits ip.toNat ++
    '.' :: (if fs = [] then ['0'] else fs)

/-- `clean_district_number` applied to one raw cell
(`df["DISTRICT NUMBER"].apply(clean_district_number)`). -/
def cleanCell : Cell → Cell
  | .intv n => .txt (cleanStr (intStr n))
  | .fl q => .txt (cleanStr (floatStr q))
  | .txt s => .txt (cleanStr s)
  | .null => .null

/-! ### The year column: `pd.to_numeric(col, errors="coerce").astype("Int16")`

`astype("Int16")` safe-casts: a parsed value that is not an integer or does
not fit a 16-bit signed integer raises, aborting `prepare_data`; missing and
unparseable values become nullable-integer `NA`. -/

def castYearCell (c : Cell) : Except Unit Cell :=
  match toNumericCell c with
  | none => .ok .null
  | some q =>
      if q.den = 1 ∧ -32768 ≤ q.num ∧ q.num ≤ 32767 then .ok (.intv q.num)
      else .error ()

def castYearCol : List Cell → Except Unit (List Cell)
  | [] => .ok []
  | c :: cs => do
      let c' ← castYearCell c
      let cs' ← castYearCol cs
      return c' :: cs'

/-- The per-column type-conversion step of `prepare_data` (lines 51–60),
dispatching on the canonicalized column name. -/
def convertColumn (name : List Char) (cells : List Cell) : Except Unit (List Cell) :=
  if name = "district_number".toList ∨ name = "district_name".toList then .ok cells
  else if name = "year".toList then castYearCol cells
  else .ok (if decideCoerce cells then cells.map coerceCell else cells)

def convertAll : List (List Char × List Cell) → Except Unit (List (List Char × List Cell))
  | [] => .ok []
  | (n, cs) :: rest => do
      let cs' ← convertColumn n cs
      let rest' ← convertAll rest
      return (n, cs') :: rest'

/-- Raw name of the district-number column, accessed before renaming. -/
def dnRaw : List Char := "DISTRICT NUMBER".toList

/-- `df["DISTRICT NUMBER"] = df["DISTRICT NUMBER"].apply(clean_district_number)`. -/
def cleanStep (df : List (List Char × List Cell)) : List (List Char × List Cell) :=
  df.map (fun p => if p.1 = dnRaw then (p.1, p.2.map cleanCell) else p)

/-- `df.rename(columns=col_mapping)`. -/
def renameStep (df : List (List Char × List Cell)) : List (List Char × List Cell) :=
  List.zip (renameCols (df.map Prod.fst)) (df.map Prod.snd)

/-- `prepare_data`'s in-memory transformation (lines 25–60): clean the
district-number column (a missing `DISTRICT NUMBER` column is a `KeyError`),
canonicalize and de-duplicate the column names, then convert types
column-by-column. Loading and saving are external I/O and not modelled. -/
def prepareDf (df : List (List Char × List Cell)) :
    Except Unit (List (List Char × List Cell)) :=
  if dnRaw ∈ df.map Prod.fst then convertAll (renameStep (cleanStep df))
  else .error ()

/-! ### Facts about the conversion pipeline -/

/-- `true` iff the computation succeeded. -/
def exceptOk {α : Type} : Except Unit α → Bool
  | .ok _ => true
  | .error _ => false

/-- Cell lengths of the columns on success, `none` on an aborted run. -/
def okLens (e : Except Unit (List (List Char × List Cell))) : Option (List Nat) :=
  match e with
  | .ok out => some (out.map (fun p => p.2.length))
  | .error _ => none

/-- On success, every cell of every column named `year` is either missing or
an integer. -/
def yearCellsOk (e : Except Unit (List (List Char × List Cell))) : Prop :=
  match e with
  | .error _ => True
  | .ok out => ∀ p ∈ out, p.1 = "year".toList →
      ∀ c ∈ p.2, c = Cell.null ∨ ∃ n : ℤ, c = Cell.intv n

theorem castYearCell_unparseable {c : Cell} (h : toNumericCell c = none) :
    castYearCell c = .ok Cell.null := by
  unfold castYearCell
  rw [h]

theorem castYearCell_shape {c c' : Cell} (h : castYearCell c = .ok c') :
    c' = Cell.null ∨ ∃ n : ℤ, c' = Cell.intv n := by
  unfold castYearCell at h
  cases hn : toNumericCell c with
  | none =>
      rw [hn] at h
      cases h
      exact Or.inl rfl
  | some q =>
      rw [hn] at h
      have h' : (if q.den = 1 ∧ -32768 ≤ q.num ∧ q.num ≤ 32767
                 then (Except.ok (Cell.intv q.num) : Except Unit Cell)
                 else .error ()) = .ok c' := h
      by_cases hc : q.den = 1 ∧ -32768 ≤ q.num ∧ q.num ≤ 32767
      · rw [if_pos hc] at h'
        cases h'
        exact Or.inr ⟨q.num, rfl⟩
      · rw [if_neg hc] at h'
        cases h'

theorem castYearCol_ok {cs out : List Cell} (h : castYearCol cs = .ok out) :
    out.length = cs.length ∧
      ∀ c ∈ out, c = Cell.null ∨ ∃ n : ℤ, c = Cell.intv n := by
  induction cs generalizing out with
  | nil =>
      cases h
      exact ⟨rfl, by intro c hc; cases hc⟩
  | cons c cs ih =>
      unfold castYearCol at h
      cases hc : castYearCell c with
      | error e => rw [hc] at h; cases h
      | ok c' =>
          rw [hc] at h
          cases hcs : castYearCol cs with
          | error e =>
              rw [hcs] at h
              cases h
          | ok cs' =>
              rw [hcs] at h
              cases h
              obtain ⟨hlen, hshape⟩ := ih hcs
              refine ⟨by simp [hlen], ?_⟩
              intro x hx
              rcases List.mem_cons.mp hx with rfl | hx'
              · exact castYearCell_shape hc
              · exact hshape x hx'

theorem convertColumn_ok_length {name : List Char} {cs out : List Cell}
    (h : convertColumn name cs = .ok out) : out.length = cs.length := by
  unfold convertColumn at h
  by_cases h1 : name = "district_number".toList ∨ name = "district_name".toList
  · rw [if_pos h1] at h
    cases h
    rfl
  · rw [if_neg h1] at h
    by_cases h2 : name = "year".toList
    · rw [if_pos h2] at h
      exact (castYearCol_ok h).1
    · rw [if_neg h2] at h
      cases h
      by_cases h3 : decideCoerce cs = true
      · rw [if_pos h3]
        exact List.length_map _ _
      · rw [if_neg h3]

theorem convertAll_ok (l : List (List Char × List Cell))
    (h : ∀ p ∈ l, p.1 = "year".toList → exceptOk (castYearCol p.2) = true) :
    okLens (convertAll l) = some (l.map (fun p => p.2.length)) ∧
      yearCellsOk (convertAll l) := by
  induction l with
  | nil => exact ⟨rfl, by intro p hp; cases hp⟩
  | cons p rest ih =>
      obtain ⟨n, cs⟩ := p
      have hconv : ∃ out, convertColumn n cs = .ok out := by
        by_cases h1 : n = "district_number".toList ∨ n = "district_name".toList
        · exact ⟨cs, by unfold convertColumn; rw [if_pos h1]⟩
        · by_cases h2 : n = "year".toList
          · have hY := h (n, cs) (List.mem_cons_self _ _) h2
            cases hcast : castYearCol cs with
            | error e =>
                rw [hcast] at hY
                simp [exceptOk] at hY
            | ok out =>
                refine ⟨out, ?_⟩
                have hcc : convertColumn n cs = castYearCol cs := by
                  unfold convertColumn
                  rw [if_neg h1, if_pos h2]
                rw [hcc, hcast]
          · refine ⟨if decideCoerce cs then cs.map coerceCell else cs, ?_⟩
            unfold convertColumn
            rw [if_neg h1, if_neg h2]
      obtain ⟨out, hout⟩ := hconv
      obtain ⟨ih1, ih2⟩ := ih (fun q hq => h q (List.mem_cons_of_mem _ hq))
      cases hrest : convertAll rest with
      | error e =>
          rw [hrest] at ih1
          cases ih1
      | ok rest' =>
          rw [hrest] at ih1 ih2
          have hstep : convertAll ((n, cs) :: rest) = .ok ((n, out) :: rest') := by
            unfold convertAll
            rw [hout, hrest]
            rfl
          rw [hstep]
          constructor
          · have hlen := convertColumn_ok_length hout
            simp only [okLens, List.map_cons, hlen]
            simp only [okLens, Option.some_inj] at ih1
            rw [ih1]
          · intro q hq hqname
            rcases List.mem_cons.mp hq with rfl | hq'
            · intro c hc
              have hqn : n = "year".toList := hqname
              have hy : castYearCol cs = .ok out := by
                have hn1 : ¬(n = "district_number".toList ∨
                    n = "district_name".toList) := by
                  rw [hqn]
                  decide
                unfold convertColumn at hout
                rwa [if_neg hn1, if_pos hqn] at hout
              exact (castYearCol_ok hy).2 c hc
            · exact ih2 q hq' hqname

theorem zip_map_snd {α β : Type} :
    ∀ (a : List α) (b : List β), a.length = b.length →
      (List.zip a b).map Prod.snd = b := by
  intro a
  induction a with
  | nil =>
      intro b h
      cases b with
      | nil => rfl
      | cons x xs => cases h
  | cons x xs ih =>
      intro b h
      cases b with
      | nil => cases h
      | cons y ys =>
          simp only [List.zip_cons_cons, List.map_cons]
          rw [ih ys (by simpa using h)]

theorem renameStep_snd (X : List (List Char × List Cell)) :
    (renameStep X).map Prod.snd = X.map Prod.snd := by
  unfold renameStep
  apply zip_map_snd
  unfold renameCols
  rw [List.length_map, List.length_map, List.length_map]

theorem cleanStep_lens (df : List (List Char × List Cell)) :
    (cleanStep df).map (fun p => p.2.length) = df.map (fun p => p.2.length) := by
  induction df with
  | nil => rfl
  | cons p rest ih =>
      show (if p.1 = dnRaw then (p.1, p.2.map cleanCell) else p).2.length ::
             (cleanStep rest).map (fun p => p.2.length) = _
      rw [ih]
      by_cases hp : p.1 = dnRaw
      · rw [if_pos hp]
        simp [List.length_map]
      · rw [if_neg hp]
        rfl

theorem lens_via_snd (l : List (List Char × List Cell)) :
    l.map (fun p => p.2.length) = (l.map Prod.snd).map List.length := by
  rw [List.map_map]
  rfl

/-- Under the two side conditions forced by the source (the raw
district-number column is present, and every value reaching the year cast
is missing, unparseable, or a 16-bit integer), `prepare_data` succeeds,
keeps every row of every column, and leaves every `year` cell either null
or an integer. -/
theorem prepareDf_ok (df : List (List Char × List Cell))
    (h1 : dnRaw ∈ df.map Prod.fst)
    (h2 : ∀ p ∈ renameStep (cleanStep df), p.1 = "year".toList →
      exceptOk (castYearCol p.2) = true) :
    okLens (prepareDf df) = some (df.map (fun p => p.2.length)) ∧
      yearCellsOk (prepareDf df) := by
  unfold prepareDf
  rw [if_pos h1]
  obtain ⟨hlens, hyear⟩ := convertAll_ok _ h2
  refine ⟨?_, hyear⟩
  rw [hlens]
  rw [lens_via_snd, renameStep_snd, ← lens_via_snd, cleanStep_lens]

/-! ### A concrete batch on which `prepare_data` aborts

A single row whose year reads `"2020.5"`: `pd.to_numeric` parses it to the
non-integral float `4041/2`, and `astype("Int16")` then raises, so the run
produces no output at all. -/

theorem hparse_half : parsePyNum "2020.5".toList =
    some (((2020 : ℚ) + (5 : ℚ) / (10 : ℚ) ^ (1 : ℕ)) * (10 : ℚ) ^ (0 : ℤ)) := rfl

theorem hval_half :
    (((2020 : ℚ) + (5 : ℚ) / (10 : ℚ) ^ (1 : ℕ)) * (10 : ℚ) ^ (0 : ℤ)) = 4041 / 2 := by
  norm_num

theorem hden_half : ((4041 : ℚ) / 2).den = 2 := by norm_num [Rat.den]

theorem castYearCell_fail {c : Cell} {q : ℚ} (h : toNumericCell c = some q)
    (hd : q.den ≠ 1) : castYearCell c = .error () := by
  unfold castYearCell
  rw [h]
  exact if_neg (fun hc => hd hc.1)

theorem hcastcell_half : castYearCell (Cell.txt "2020.5".toList) = .error () := by
  apply castYearCell_fail (q := (4041 : ℚ) / 2)
  · show parsePyNum "2020.5".toList = _
    rw [hparse_half, hval_half]
  · rw [hden_half]
    decide

theorem convertAll_cons (n : List Char) (cs : List Cell)
    (rest : List (List Char × List Cell)) :
    convertAll ((n, cs) :: rest) =
      (convertColumn n cs).bind (fun cs' =>
        (convertAll rest).bind (fun rest' => .ok ((n, cs') :: rest'))) := rfl

theorem hcastcol_half : castYearCol [Cell.txt "2020.5".toList] = .error () := by
  unfold castYearCol
  rw [hcastcell_half]
  rfl

/-- A one-row batch with a parseable but non-integral year value. -/
def dfBad : List (List Char × List Cell) :=
  [(dnRaw, [Cell.txt ['1']]), ("YEAR".toList, [Cell.txt "2020.5".toList])]

theorem dfBad_err : prepareDf dfBad = .error () := by
  unfold prepareDf
  rw [if_pos (by decide)]
  rw [show renameStep (cleanStep dfBad) =
        [("district_number".toList, [Cell.txt "000001".toList]),
         ("year".toList, [Cell.txt "2020.5".toList])] by
      rw [show renameStep (cleanStep dfBad) =
            [("district_number".toList, [Cell.txt "000001".toList]),
             ("YEAR".toList.map pyToLower, [Cell.txt "2020.5".toList])] from rfl]
      rw [show "YEAR".toList.map pyToLower = "year".toList by decide]]
  rw [convertAll_cons]
  rw [show convertColumn "district_number".toList [Cell.txt "000001".toList] =
        .ok [Cell.txt "000001".toList] by
      unfold convertColumn; rw [if_pos (Or.inl rfl)]]
  rw [convertAll_cons]
  rw [show convertColumn "year".toList [Cell.txt "2020.5".toList] = .error () by
      unfold convertColumn; rw [if_neg (by decide), if_pos rfl]; exact hcastcol_half]
  rfl

/-! ## Metric derivation (spec §3/§4.2)

The `v_finance_summary` view computing the per-student metrics is defined in
the Supabase database, outside this repository; only its column semantics are
documented (spec §3, and the schema text in `src/nlp_engine.py`). -/

/-- Modelled from the spec: the `FinancialRecord` of §3 — the backing table
and view are missing from the repository; fields follow the spec's data
model (nullable non-negative amounts, nullable enrollment count). -/
structure FinancialRecord where
  district_number : List Char
  district_name : List Char
  year : ℤ
  total_revenue : Option ℚ
  total_spend : Option ℚ
  instruction_spend : Option ℚ
  debt_service : Option ℚ
  capital_projects : Option ℚ
  enrollment : Option ℕ
deriving DecidableEq

/-- Modelled from the spec: `spend_per_student = total_spend / enrollment`,
undefined (null) if enrollment is null or zero (§3, §4.2). -/
def spend_per_student (r : FinancialRecord) : Option ℚ :=
  match r.enrollment, r.total_spend with
  | none, _ => none
  | some 0, _ => none
  | some _, none => none
  | some e, some ts => some (ts / (e : ℚ))

/-- Modelled from the spec: `revenue_per_student = total_revenue /
enrollment` (same null rule). -/
def revenue_per_student (r : FinancialRecord) : Option ℚ :=
  match r.enrollment, r.total_revenue with
  | none, _ => none
  | some 0, _ => none
  | some _, none => none
  | some e, some tr => some (tr / (e : ℚ))

/-! ## The query surface (`src/api.py`)

Endpoints are modelled over in-memory tables of view rows; only the columns
the query templates reference (filter keys, order keys, flags) are carried,
since the other selected columns never influence filtering, ordering or the
limit. SQL `ORDER BY` is insertion sort with the endpoint's key; `DISTINCT`
is first-seen de-duplication; `ILIKE '%q%'` is case-insensitive substring
match; parameter validation mirrors the `Query(...)` bounds, with `.error`
standing for an HTTP 4xx response. -/

structure SummaryRow where
  district_number : List Char
  district_name : List Char
  year : ℤ
deriving DecidableEq

structure AnomalyRow where
  district_number : List Char
  district_name : List Char
  year : ℤ
  revenue_drop_flag : Bool
  spend_spike_flag : Bool
  per_student_spike_flag : Bool
  enrollment_decline_flag : Bool
deriving DecidableEq

def insertBy {α : Type} (le : α → α → Bool) (x : α) : List α → List α
  | [] => [x]
  | y :: ys => if le x y then x :: y :: ys else y :: insertBy le x ys

def sortBy {α : Type} (le : α → α → Bool) (l : List α) : List α :=
  l.foldr (insertBy le) []

def dedupGo {α : Type} [DecidableEq α] (seen : List α) : List α → List α
  | [] => []
  | x :: xs => if x ∈ seen then dedupGo seen xs else x :: dedupGo (x :: seen) xs

/-- Does `pat` occur at the start of `s`? -/
def leadAgrees : List Char → List Char → Bool
  | [], _ => true
  | _ :: _, [] => false
  | c :: cs, d :: ds => c == d && leadAgrees cs ds

/-- Does `pat` occur anywhere in `s`? -/
def containsSeq (pat : List Char) : List Char → Bool
  | [] => pat.isEmpty
  | d :: rest => leadAgrees pat (d :: rest) || containsSeq pat rest

/-- `district_name ILIKE '%q%'`. -/
def ilike (name pat : List Char) : Bool :=
  containsSeq (pat.map pyToLower) (name.map pyToLower)

/-- Lexicographic order on names (SQL `ORDER BY district_name`). -/
def lexLe : List Char → List Char → Bool
  | [], _ => true
  | _ :: _, [] => false
  | c :: cs, d :: ds => if c == d then lexLe cs ds else decide (c.toNat ≤ d.toNat)

/-- `GET /districts` (lines 114–139): optional fuzzy name search,
`SELECT DISTINCT district_number, district_name ... ORDER BY district_name
LIMIT $n`. An absent or empty `search` falls to the unfiltered query
(`if search:` is false for both `None` and `""`). -/
def listDistrictsQuery (tbl : List SummaryRow) (search : Option (List Char))
    (lim : ℕ) : List (List Char × List Char) :=
  let base :=
    match search with
    | some q => if q.isEmpty then tbl else tbl.filter (fun r => ilike r.district_name q)
    | none => tbl
  (sortBy (fun a b => lexLe a.2 b.2)
      (dedupGo [] (base.map (fun r => (r.district_number, r.district_name))))).take lim

/-- `limit: int = Query(100, ge=1, le=500)`: default 100, rejected outside
`[1, 500]`. -/
def handleListDistricts (tbl : List SummaryRow) (search : Option (List Char))
    (limitParam : Option ℤ) : Except Unit (List (List Char × List Char)) :=
  let lim := limitParam.getD 100
  if 1 ≤ lim ∧ lim ≤ 500 then .ok (listDistrictsQuery tbl search lim.toNat)
  else .error ()

inductive FlagKind where
  | revenue_drop
  | spend_spike
  | per_student_spike
  | enrollment_decline
deriving DecidableEq

def flagOf : FlagKind → AnomalyRow → Bool
  | .revenue_drop, r => r.revenue_drop_flag
  | .spend_spike, r => r.spend_spike_flag
  | .per_student_spike, r => r.per_student_spike_flag
  | .enrollment_decline, r => r.enrollment_decline_flag

/-- The dynamically built `WHERE` clause of `GET /anomalies`: year and flag
conditions are conjoined when present; with neither, any raised flag
qualifies. -/
def anomalyPred (yearQ : Option ℤ) (flagQ : Option FlagKind) (r : AnomalyRow) : Bool :=
  match yearQ, flagQ with
  | some y, some f => decide (r.year = y) && flagOf f r
  | some y, none => decide (r.year = y)
  | none, some f => flagOf f r
  | none, none =>
      r.revenue_drop_flag || r.spend_spike_flag ||
        r.per_student_spike_flag || r.enrollment_decline_flag

/-- `ORDER BY year DESC, district_name`. -/
def anomLe (a b : AnomalyRow) : Bool :=
  if a.year = b.year then lexLe a.district_name b.district_name
  else decide (b.year ≤ a.year)

def getAnomaliesQuery (tbl : List AnomalyRow) (yearQ : Option ℤ)
    (flagQ : Option FlagKind) (lim : ℕ) : List AnomalyRow :=
  (sortBy anomLe (tbl.filter (anomalyPred yearQ flagQ))).take lim

/-- `year: Optional[int] = Query(None, ge=2008, le=2024)`. -/
def yearParamOk : Option ℤ → Bool
  | none => true
  | some y => decide (2008 ≤ y ∧ y ≤ 2024)

/-- `GET /anomalies` (lines 174–212). -/
def handleGetAnomalies (tbl : List AnomalyRow) (yearQ : Option ℤ)
    (flagQ : Option FlagKind) (limitParam : Option ℤ) :
    Except Unit (List AnomalyRow) :=
  let lim := limitParam.getD 100
  if (1 ≤ lim ∧ lim ≤ 500) ∧ yearParamOk yearQ = true then
    .ok (getAnomaliesQuery tbl yearQ flagQ lim.toNat)
  else .error ()

def summaryPred (dn : List Char) (sy ey : Option ℤ) (r : SummaryRow) : Bool :=
  decide (r.district_number = dn) &&
    (match sy, ey with
     | some a, some b => decide (a ≤ r.year ∧ r.year ≤ b)
     | some a, none => decide (a ≤ r.year)
     | none, some b => decide (r.year ≤ b)
     | none, none => true)

/-- `GET /district/{district_number}/summary` (lines 141–172): year-range
filter, `ORDER BY year`, 404 on an empty result — and no limit parameter at
all. -/
def getDistrictSummary (tbl : List SummaryRow) (dn : List Char)
    (sy ey : Option ℤ) : Except Unit (List SummaryRow) :=
  if yearParamOk sy = true ∧ yearParamOk ey = true then
    if (sortBy (fun a b => decide (a.year ≤ b.year))
          (tbl.filter (summaryPred dn sy ey))).isEmpty then .error ()
    else .ok (sortBy (fun a b => decide (a.year ≤ b.year))
          (tbl.filter (summaryPred dn sy ey)))
  else .error ()

/-- Number of rows of a successful response (0 for an error response). -/
def resultLen {α : Type} : Except Unit (List α) → ℕ
  | .ok l => l.length
  | .error _ => 0

/-! ## The NL query method (`src/nlp_engine.py`, lines 85–116)

The LangChain agent is an external collaborator: it is a parameter mapping
the (safety-wrapped) question to either the `"output"` entry of its result
dict (`none` when the key is absent) or a raised exception's message. -/

structure NLPResult where
  success : Bool
  question : List Char
  answer : Option (List Char)
  error : Option (List Char)
deriving DecidableEq

/-- `f"{question}\nPlease limit results to 100 rows maximum."`. -/
def safeQuestion (q : List Char) : List Char :=
  q ++ '\n' :: "Please limit results to 100 rows maximum.".toList

/-- `TexasFinanceNLPEngine.query`. -/
def nlpQuery (agent : List Char → Except (List Char) (Option (List Char)))
    (q : List Char) : NLPResult :=
  match agent (safeQuestion q) with
  | .ok out =>
      { success := true, question := q,
        answer := some (out.getD "No result returned".toList), error := none }
  | .error e =>
      { success := false, question := q, answer := none, error := some e }

theorem length_insertBy {α : Type} (le : α → α → Bool) (x : α) :
    ∀ l : List α, (insertBy le x l).length = l.length + 1 := by
  intro l
  induction l with
  | nil => rfl
  | cons y ys ih =>
      show (if le x y then x :: y :: ys else y :: insertBy le x ys).length = _
      by_cases h : le x y = true
      · rw [if_pos h]
        rfl
      · rw [if_neg h]
        simp [ih]

theorem length_sortBy {α : Type} (le : α → α → Bool) :
    ∀ l : List α, (sortBy le l).length = l.length := by
  intro l
  induction l with
  | nil => rfl
  | cons x xs ih =>
      show (insertBy le x (sortBy le xs)).length = xs.length + 1
      rw [length_insertBy, ih]

theorem sortBy_replicate {α : Type} (le : α → α → Bool) (r : α)
    (hrefl : le r r = true) : ∀ n, sortBy le (List.replicate n r) = List.replicate n r := by
  intro n
  induction n with
  | zero => rfl
  | succ n ih =>
      show insertBy le r (sortBy le (List.replicate n r)) = _
      rw [ih]
      cases n with
      | zero => rfl
      | succ m =>
          show (if le r r then r :: r :: List.replicate m r
                else r :: insertBy le r (List.replicate m r)) = _
          rw [if_pos hrefl]
          rfl

/-! ## Claim theorems -/

/-- C1 (counterexample): the claim says *surrounding* quote characters are
stripped, but the source strips only leading apostrophes: on `"123'"` the
code passes the value through unchanged while the claim's reading would
strip the trailing quote and zero-pad. -/
theorem C1_counterexample :
    clean_district_number (some "123'".toList) = some "123'".toList ∧
      clean_district_number_claimed (some "123'".toList) = some "000123".toList ∧
      clean_district_number (some "123'".toList) ≠
        clean_district_number_claimed (some "123'".toList) := by
  refine ⟨by decide, by decide, by decide⟩

/-- C1 (amended): district-number cleaning strips surrounding whitespace and
then *leading* apostrophes; if the remainder is purely numeric it is
left-padded with `'0'` to 6 digits (a no-op at length ≥ 6), otherwise it is
passed through unchanged; a missing value stays missing. -/
theorem C1_clean_characterization :
    (∀ s : List Char,
        clean_district_number (some s) =
          some (if pyIsDigit (pyLstripChar '\'' (pyLstripChar '\'' (pyStrip s)))
                then List.replicate
                       (6 - (pyLstripChar '\'' (pyLstripChar '\'' (pyStrip s))).length) '0'
                     ++ pyLstripChar '\'' (pyLstripChar '\'' (pyStrip s))
                else pyLstripChar '\'' (pyLstripChar '\'' (pyStrip s)))) ∧
      clean_district_number none = none := by
  refine ⟨?_, rfl⟩
  intro s
  rw [clean_some]
  by_cases hd : pyIsDigit (pyLstripChar '\'' (pyLstripChar '\'' (pyStrip s))) = true
  · rw [if_pos hd, if_pos hd,
        zfill_eq_replicate_of_digits (Bool.and_eq_true_iff.mp hd).2]
  · rw [if_neg hd, if_neg hd]

/-- C2 (counterexample): canonicalization truncates to 60 characters, not
63: a 61-character alphabetic name is cut to 60 by the source while the
claim's 63-wide truncation would leave it whole. -/
theorem C2_counterexample :
    to_snake_case (List.replicate 61 'a') = List.replicate 60 'a' ∧
      snake_case_spec 63 (List.replicate 61 'a') = List.replicate 61 'a' ∧
      to_snake_case (List.replicate 61 'a') ≠
        snake_case_spec 63 (List.replicate 61 'a') := by
  refine ⟨by decide, by decide, by decide⟩

/-- C2 (amended): for every raw column name, `to_snake_case` equals the
spec's description — lower-case, replace each run of non-alphanumeric
characters with one underscore, strip surrounding underscores — with the
truncation width corrected from 63 to 60. -/
theorem C2_canonicalization (name : List Char) :
    to_snake_case name = snake_case_spec 60 name :=
  to_snake_case_eq_spec name

/-- The column used in the C3 counterexample: 9 parseable values, one
non-numeric string, 10 missing cells. 90% of its non-missing values parse,
yet only 45% of all its values do. -/
def c3col : List Cell :=
  List.replicate 9 (Cell.intv 1) ++ Cell.txt ['x'] :: List.replicate 10 Cell.null

/-- C3 (counterexample): the source's ratio divides by the whole column
length, not by the count of non-missing values: on `c3col` the claim's
non-missing ratio reaches 90%, but the code leaves the column as text
(coercion would have replaced the `'x'` cell by null). -/
theorem C3_counterexample :
    decideCoerceClaimed c3col = true ∧
      convertColumn "total_revenue".toList c3col = .ok c3col ∧
      c3col.map coerceCell ≠ c3col := by
  refine ⟨by decide, by rfl, by decide⟩

/-- C3 (amended): a column other than `district_number`, `district_name` and
`year` is coerced to numeric iff it is non-empty and at least 90% of *all*
its values (missing ones counted as failures) parse as numbers; otherwise it
is left unchanged. -/
theorem C3_coercion_rule (name : List Char) (cells : List Cell)
    (h1 : ¬(name = "district_number".toList ∨ name = "district_name".toList))
    (h2 : ¬ name = "year".toList) :
    convertColumn name cells =
        .ok (if decideCoerce cells then cells.map coerceCell else cells) ∧
      (decideCoerce cells = true ↔
        (cells ≠ [] ∧ 9 * cells.length ≤ 10 * parsedCount cells)) := by
  constructor
  · unfold convertColumn
    rw [if_neg h1, if_neg h2]
  · simp [decideCoerce, Bool.and_eq_true, Bool.not_eq_true', List.isEmpty_iff,
          decide_eq_true_eq]

theorem C3_coercion_rule_witness :
    convertColumn "total_revenue".toList [Cell.null] =
        .ok (if decideCoerce [Cell.null]
             then [Cell.null].map coerceCell else [Cell.null]) ∧
      (decideCoerce [Cell.null] = true ↔
        ([Cell.null] ≠ [] ∧ 9 * [Cell.null].length ≤ 10 * parsedCount [Cell.null])) :=
  C3_coercion_rule "total_revenue".toList [Cell.null] (by decide) (by decide)

/-- C4 (counterexample): with two *identical* raw names, the mapping dict
keeps only the last assignment, so `df.rename` sends both columns to the
suffixed name: the result is `["a_1", "a_1"]` — neither pairwise distinct
nor the claimed first-seen `["a", "a_1"]`. -/
theorem C4_counterexample :
    renameCols [['A'], ['A']] = ["a_1".toList, "a_1".toList] ∧
      ¬ (renameCols [['A'], ['A']]).Nodup := by
  refine ⟨by decide, by decide⟩

/-- C4 (amended): for every sequence of pairwise-distinct raw column names,
de-duplication appends incrementing numeric suffixes in first-seen order and
the final names are pairwise distinct; in particular two distinct raw names
both normalizing to `total_revenue` yield `total_revenue` and
`total_revenue_1`. -/
theorem C4_dedup :
    (∀ cols : List (List Char), cols.Nodup → (renameCols cols).Nodup) ∧
      renameCols ["TOTAL REVENUE".toList, "Total_Revenue".toList] =
        ["total_revenue".toList, "total_revenue_1".toList] :=
  ⟨renameCols_nodup, by decide⟩

theorem C4_dedup_witness : (renameCols [['A'], ['B']]).Nodup :=
  C4_dedup.1 [['A'], ['B']] (by decide)

/-- C5: for every record whose enrollment is null or zero, both derived
per-student metrics are null; derivation is a total function (no
division-by-zero fault). -/
theorem C5_metrics_null (r : FinancialRecord)
    (h : r.enrollment = none ∨ r.enrollment = some 0) :
    spend_per_student r = none ∧ revenue_per_student r = none := by
  constructor
  · unfold spend_per_student
    rcases h with h | h
    · rw [h]
    · rw [h]
      cases r.total_spend <;> rfl
  · unfold revenue_per_student
    rcases h with h | h
    · rw [h]
    · rw [h]
      cases r.total_revenue <;> rfl

/-- A record with zero enrollment. -/
def recZeroEnrollment : FinancialRecord :=
  { district_number := "000001".toList, district_name := "X ISD".toList,
    year := 2020, total_revenue := some 5, total_spend := some 7,
    instruction_spend := none, debt_service := none, capital_projects := none,
    enrollment := some 0 }

theorem C5_metrics_null_witness :
    spend_per_student recZeroEnrollment = none ∧
      revenue_per_student recZeroEnrollment = none :=
  C5_metrics_null recZeroEnrollment (Or.inr rfl)

/-- C6 (counterexample): on a one-row batch whose year value is the
parseable but non-integral `"2020.5"`, `prepare_data` raises in
`astype("Int16")` and aborts, so no output rows exist at all — the row
count is not preserved. -/
theorem C6_counterexample :
    prepareDf dfBad = .error () ∧
      okLens (prepareDf dfBad) ≠ some (dfBad.map (fun p => p.2.length)) := by
  refine ⟨dfBad_err, ?_⟩
  rw [dfBad_err]
  decide

/-- C6 (amended): provided the raw `DISTRICT NUMBER` column is present and
every value reaching the year cast is missing, unparseable, or an integer
representable in 16 bits, normalization never discards a row: the run
succeeds, every column keeps its cell count, every `year` cell is null or an
integer, and a cell whose year fails to parse is retained as null. -/
theorem C6_row_retention (df : List (List Char × List Cell))
    (h1 : dnRaw ∈ df.map Prod.fst)
    (h2 : ∀ p ∈ renameStep (cleanStep df), p.1 = "year".toList →
      exceptOk (castYearCol p.2) = true) :
    (okLens (prepareDf df) = some (df.map (fun p => p.2.length)) ∧
        yearCellsOk (prepareDf df)) ∧
      ∀ c : Cell, toNumericCell c = none → castYearCell c = .ok Cell.null :=
  ⟨prepareDf_ok df h1 h2, fun _ hc => castYearCell_unparseable hc⟩

/-- A well-formed one-column batch. -/
def dfGood : List (List Char × List Cell) := [(dnRaw, [Cell.txt ['1']])]

theorem C6_row_retention_witness :
    (okLens (prepareDf dfGood) = some (dfGood.map (fun p => p.2.length)) ∧
        yearCellsOk (prepareDf dfGood)) ∧
      ∀ c : Cell, toNumericCell c = none → castYearCell c = .ok Cell.null :=
  C6_row_retention dfGood (by decide) (by decide)

def sumRow0 : SummaryRow := ⟨['1'], ['a'], 2010⟩

/-- A 501-row table for one district. -/
def tbl501 : List SummaryRow := List.replicate 501 sumRow0

/-- C8 (counterexample): the district-summary endpoint is a row-set-returning
query endpoint with no limit parameter: on a 501-row table it returns all
501 rows, above the claimed 500-row maximum. -/
theorem C8_counterexample :
    getDistrictSummary tbl501 ['1'] none none = .ok (List.replicate 501 sumRow0) ∧
      ¬ resultLen (getDistrictSummary tbl501 ['1'] none none) ≤ 500 := by
  have hfilter : tbl501.filter (summaryPred ['1'] none none) = tbl501 :=
    List.filter_eq_self.mpr (fun a ha => by
      rw [List.eq_of_mem_replicate ha]; decide)
  have hsort : sortBy (fun a b => decide (a.year ≤ b.year)) tbl501 = tbl501 :=
    sortBy_replicate _ _ (by decide) 501
  have hmain : getDistrictSummary tbl501 ['1'] none none = .ok tbl501 := by
    unfold getDistrictSummary
    rw [if_pos ⟨rfl, rfl⟩, hfilter, hsort]
    rw [show (tbl501.isEmpty : Bool) = false from rfl]
    simp
  refine ⟨hmain, ?_⟩
  rw [hmain]
  show ¬ tbl501.length ≤ 500
  rw [show tbl501.length = 501 from List.length_replicate 501 sumRow0]
  omega

/-- C8 (amended): the `/districts` and `/anomalies` endpoints validate their
limit parameter into `[1, 500]` (default 100) and return at most `limit`
rows, rejecting out-of-range values; the per-district summary endpoint,
however, has no limit at all. -/
theorem C8_limit_validation :
    (∀ (tbl : List SummaryRow) (s : Option (List Char)) (p : Option ℤ)
        (rows : List (List Char × List Char)),
        handleListDistricts tbl s p = .ok rows →
          rows.length ≤ (p.getD 100).toNat ∧ 1 ≤ p.getD 100 ∧ p.getD 100 ≤ 500) ∧
      (∀ (tbl : List SummaryRow) (s : Option (List Char)) (v : ℤ),
        (v < 1 ∨ 500 < v) → handleListDistricts tbl s (some v) = .error ()) ∧
      (∀ (tbl : List AnomalyRow) (y : Option ℤ) (f : Option FlagKind)
        (p : Option ℤ) (rows : List AnomalyRow),
        handleGetAnomalies tbl y f p = .ok rows →
          rows.length ≤ (p.getD 100).toNat ∧ 1 ≤ p.getD 100 ∧ p.getD 100 ≤ 500) ∧
      (∀ (tbl : List AnomalyRow) (y : Option ℤ) (f : Option FlagKind) (v : ℤ),
        (v < 1 ∨ 500 < v) → handleGetAnomalies tbl y f (some v) = .error ()) := by
  refine ⟨?_, ?_, ?_, ?_⟩
  · intro tbl s p rows h
    unfold handleListDistricts at h
    by_cases hv : 1 ≤ p.getD 100 ∧ p.getD 100 ≤ 500
    · rw [if_pos hv] at h
      cases h
      refine ⟨?_, hv.1, hv.2⟩
      unfold listDistrictsQuery
      rw [List.length_take]
      exact min_le_left _ _
    · rw [if_neg hv] at h
      exact Except.noConfusion h
  · intro tbl s v hv
    unfold handleListDistricts
    rw [if_neg (by
      show ¬(1 ≤ (some v).getD 100 ∧ (some v).getD 100 ≤ 500)
      simp only [Option.getD_some]
      omega)]
  · intro tbl y f p rows h
    unfold handleGetAnomalies at h
    by_cases hv : (1 ≤ p.getD 100 ∧ p.getD 100 ≤ 500) ∧ yearParamOk y = true
    · rw [if_pos hv] at h
      cases h
      refine ⟨?_, hv.1.1, hv.1.2⟩
      unfold getAnomaliesQuery
      rw [List.length_take]
      exact min_le_left _ _
    · rw [if_neg hv] at h
      exact Except.noConfusion h
  · intro tbl y f v hv
    unfold handleGetAnomalies
    rw [if_neg (by
      show ¬((1 ≤ (some v).getD 100 ∧ (some v).getD 100 ≤ 500) ∧ _)
      simp only [Option.getD_some]
      omega)]

theorem C8_limit_validation_witness :
    ([] : List (List Char × List Char)).length ≤ ((none : Option ℤ).getD 100).toNat ∧
      1 ≤ (none : Option ℤ).getD 100 ∧ (none : Option ℤ).getD 100 ≤ 500 :=
  C8_limit_validation.1 [] none none [] rfl

/-- C9 (counterexample): `clean_district_number` is not idempotent: on
`"' 123"` the first pass strips the quote and exposes leading whitespace,
yielding `" 123"`; a second pass then strips that whitespace and zero-pads,
yielding `"000123"`. -/
theorem C9_counterexample :
    clean_district_number (some "' 123".toList) = some " 123".toList ∧
      clean_district_number (clean_district_number (some "' 123".toList)) =
        some "000123".toList ∧
      clean_district_number (clean_district_number (some "' 123".toList)) ≠
        clean_district_number (some "' 123".toList) := by
  refine ⟨by decide, by decide, by decide⟩

/-- C9 (amended): cleaning is idempotent on every input whose cleaned value
does not begin with a whitespace character — that is, whenever no
whitespace hides behind the stripped leading quotes. -/
theorem C9_clean_idem (x : Option (List Char)) (h : cleanStable x = true) :
    clean_district_number (clean_district_number x) = clean_district_number x :=
  clean_idem_of_stable x h

theorem C9_clean_idem_witness :
    clean_district_number (clean_district_number (some "'123".toList)) =
      clean_district_number (some "'123".toList) :=
  C9_clean_idem (some "'123".toList) (by decide)

/-- C10: the NL query method is total over the agent's outcome: it echoes
the question; on agent success it reports `success = true` with the agent's
output (or the fallback text when the `"output"` key is absent) and no
error; on an exception it reports `success = false`, no answer, and the
exception's message as the error. -/
theorem C10_query_shape
    (agent : List Char → Except (List Char) (Option (List Char)))
    (q : List Char) :
    (nlpQuery agent q).question = q ∧
      (∀ out, agent (safeQuestion q) = .ok out →
        nlpQuery agent q =
          { success := true, question := q,
            answer := some (out.getD "No result returned".toList), error := none }) ∧
      (∀ e, agent (safeQuestion q) = .error e →
        nlpQuery agent q =
          { success := false, question := q, answer := none, error := some e }) := by
  refine ⟨?_, ?_, ?_⟩
  · unfold nlpQuery
    cases agent (safeQuestion q) <;> rfl
  · intro out hout
    unfold nlpQuery
    rw [hout]
  · intro e herr
    unfold nlpQuery
    rw [herr]

theorem C10_query_shape_witness :
    nlpQuery (fun _ => Except.ok (some "hi".toList)) "q".toList =
      { success := true, question := "q".toList,
        answer := some (((some "hi".toList)).getD "No result returned".toList),
        error := none } :=
  (C10_query_shape (fun _ => Except.ok (some "hi".toList)) "q".toList).2.1
    (some "hi".toList) rfl

end TexasISD
